import Mathlib

/-!
Shallow embedding of the ChronoVault time-locked message delivery core
(src/app.py) and proofs of the specification claims about it.

The embedding models the message store as a list of `TimeMessage` records
(the `time_message` table), the delivery attempt `send_time_message`
(src/app.py lines 73-111) as a pure function taking the outcome of the
`mail.send` call and the clock reading used at line 105 as explicit
parameters, and a scheduler tick `check_and_send_messages`
(src/app.py lines 114-133) as a fold of delivery attempts over the
due-undelivered query result.  The session-epoch guard (`is_session_valid`,
`dashboard`, `create_message`) is embedded as pure gate functions over the
session contents.
-/

namespace Chronovault

/-- The `TimeMessage` model, src/app.py lines 61-70.  Timestamps are
integers; `delivered` defaults to `false` and `delivered_at` to `none`
(NULL) at creation, as in the column defaults. -/
structure TimeMessage where
  id : Nat
  user_id : Nat
  content : String
  recipient_email : String
  delivery_datetime : Int
  delivered : Bool
  created_at : Int
  delivered_at : Option Int
  deriving DecidableEq, Repr

/-- The message table: a list of rows. -/
abbrev Store := List TimeMessage

/-- Embedding of `TimeMessage.query.get(message_id)` (src/app.py line 77): fetch the
row with the given primary key (first row with that id). -/
def queryGet (s : Store) (i : Nat) : Option TimeMessage :=
  s.find? (fun m => m.id == i)

/-- The mutation at src/app.py lines 104-105: set `delivered = True` and
`delivered_at = now`. -/
def markMsg (m : TimeMessage) (t : Int) : TimeMessage :=
  { m with delivered := true, delivered_at := some t }

/-- Row-level view of the commit at src/app.py line 106: the row whose
primary key matches is the one the ORM updates. -/
def updRow (i : Nat) (t : Int) (m : TimeMessage) : TimeMessage :=
  if m.id = i then markMsg m t else m

/-- The committed effect of src/app.py lines 103-106: the row with the
given id is updated with `delivered = True, delivered_at = t`. -/
def commitDelivered (s : Store) (i : Nat) (t : Int) : Store :=
  s.map (updRow i t)

/-- Outcome of the `mail.send(msg)` call at src/app.py line 101: the call
either returns (success) or raises (failure), which the surrounding
`try/except` turns into an abandoned attempt. -/
inductive NotifyOutcome
  | success
  | failure
  deriving DecidableEq, Repr

/-- The control path taken by one `send_time_message` call:
`skipped` is the early return at lines 78-79 (message absent or already
delivered), `deliveryFailed` is the `except` path at lines 110-111 after
`mail.send` raised, `deliveredOk` is the commit at lines 103-106. -/
inductive AttemptResult
  | skipped
  | deliveryFailed
  | deliveredOk
  deriving DecidableEq, Repr

/-- One invocation of the notifier (`mail.send` of the `Message` built at
src/app.py lines 82-98), recording which message it was built from. -/
structure NotifyCall where
  message_id : Nat
  recipient : String
  body : String
  deriving DecidableEq, Repr

/-- The email body template at src/app.py lines 85-97: a fixed text
combining created time, scheduled time and the content. -/
def renderBody (m : TimeMessage) : String :=
  "Hello!\n\nYou have received a time-locked message from ChronoVault:\n\n" ++
  "Message created on: " ++ toString m.created_at ++ "\n" ++
  "Scheduled delivery: " ++ toString m.delivery_datetime ++ "\n\n" ++
  "Your Message:\n" ++ m.content ++ "\n\n---\n" ++
  "This message was sent by ChronoVault - Time-Locked Message Delivery App"

/-- Embedding of `send_time_message(message_id)`, src/app.py lines 73-111, as a pure
step: fetch the row; if absent or already delivered, return with no
effect (lines 77-79); otherwise build and send the email (lines 82-101);
on send failure the `except` at line 110 leaves the row untouched; on
success commit `delivered = True, delivered_at = t` (lines 103-106).
Returns the updated store, the path taken, and the notifier calls made. -/
def send_time_message (s : Store) (message_id : Nat) (o : NotifyOutcome)
    (t : Int) : Store × AttemptResult × List NotifyCall :=
  match queryGet s message_id with
  | none => (s, .skipped, [])
  | some m =>
    if m.delivered then (s, .skipped, [])
    else
      match o with
      | .failure => (s, .deliveryFailed, [⟨message_id, m.recipient_email, renderBody m⟩])
      | .success => (commitDelivered s message_id t, .deliveredOk,
          [⟨message_id, m.recipient_email, renderBody m⟩])

/-- Result of a sequence of delivery attempts: final store, the per-call
trace of (message id, path taken), and all notifier calls made. -/
structure SeqOut where
  store : Store
  trace : List (Nat × AttemptResult)
  calls : List NotifyCall
  deriving DecidableEq, Repr

/-- Run a sequence of `send_time_message` calls, each with its own
notifier outcome and clock reading. -/
def runSeq (s : Store) (cs : List (Nat × NotifyOutcome × Int)) : SeqOut :=
  match cs with
  | [] => ⟨s, [], []⟩
  | (i, o, t) :: rest =>
    let r := send_time_message s i o t
    let out := runSeq r.1 rest
    ⟨out.store, (i, r.2.1) :: out.trace, r.2.2 ++ out.calls⟩

/-- The due-undelivered query at src/app.py lines 121-124:
all rows with `delivered == False` and `delivery_datetime <= current_time`. -/
def dueUndelivered (s : Store) (now : Int) : List TimeMessage :=
  s.filter (fun m => !m.delivered && decide (m.delivery_datetime ≤ now))

/-- The attempt list of one tick: the loop at src/app.py lines 128-130
calls `send_time_message(message.id)` for each queried message in order;
the `env` parameter supplies the notifier outcome and the clock reading
observed by the i-th iteration. -/
def mkCalls (ids : List Nat) (env : Nat → NotifyOutcome × Int) (i : Nat) :
    List (Nat × NotifyOutcome × Int) :=
  match ids with
  | [] => []
  | idv :: rest => (idv, env i) :: mkCalls rest env (i + 1)

/-- Embedding of `check_and_send_messages()`, src/app.py lines 114-133: capture `now`,
query the due-undelivered messages, and run `send_time_message` on each
queried id in order. -/
def check_and_send_messages (s : Store) (now : Int)
    (env : Nat → NotifyOutcome × Int) : SeqOut :=
  runSeq s (mkCalls ((dueUndelivered s now).map (fun m => m.id)) env 0)

/-- A fresh message as created at src/app.py lines 289-297 with the
column defaults of lines 61-70: `delivered = False`, `delivered_at` NULL. -/
def newTimeMessage (i uid : Nat) (content recip : String)
    (dd created : Int) : TimeMessage :=
  ⟨i, uid, content, recip, dd, false, created, none⟩

/-- The Flask session contents consulted by the guards: the optional
`user_id` and `app_start_time` entries. -/
structure SessionData where
  user_id : Option Nat
  app_start_time : Option Int
  deriving DecidableEq, Repr

/-- Embedding of `is_session_valid()`, src/app.py lines 159-161:
`session.get('app_start_time') == APP_START_TIME` (a missing entry
compares unequal). -/
def is_session_valid (sess : SessionData) (appStart : Int) : Bool :=
  sess.app_start_time == some appStart

/-- Outcome of a route guard: redirect to login, or proceed to the
privileged body of the handler. -/
inductive RouteOutcome
  | redirectLogin
  | proceed
  deriving DecidableEq, Repr

/-- The guard of the `/dashboard` route, src/app.py lines 232-244:
reject when `user_id` is absent, when `is_session_valid()` fails, or
when the user row is gone; otherwise proceed. -/
def dashboard (sess : SessionData) (appStart : Int) (users : List Nat) :
    RouteOutcome :=
  match sess.user_id with
  | none => .redirectLogin
  | some uid =>
    if is_session_valid sess appStart then
      if users.contains uid then .proceed else .redirectLogin
    else .redirectLogin

/-- The guard of the `/create_message` route, src/app.py lines 251-262:
reject only when `user_id` is absent from the session or the user row is
gone; the epoch value `appStart` is never consulted (no
`is_session_valid()` call appears in this handler). -/
def create_message (sess : SessionData) (appStart : Int)
    (users : List Nat) : RouteOutcome :=
  match sess.user_id with
  | none => .redirectLogin
  | some uid =>
    if users.contains uid then .proceed else .redirectLogin

/-! ### Basic lemmas about the row operations -/

theorem markMsg_id (m : TimeMessage) (t : Int) : (markMsg m t).id = m.id := rfl

theorem markMsg_markMsg (m : TimeMessage) (t1 t2 : Int) :
    markMsg (markMsg m t1) t2 = markMsg m t2 := rfl

theorem updRow_id (i : Nat) (t : Int) (m : TimeMessage) :
    (updRow i t m).id = m.id := by
  unfold updRow; split <;> rfl

theorem updRow_of_ne (i : Nat) (t : Int) (m : TimeMessage) (h : m.id ≠ i) :
    updRow i t m = m := by
  unfold updRow; simp [h]

theorem updRow_of_eq (i : Nat) (t : Int) (m : TimeMessage) (h : m.id = i) :
    updRow i t m = markMsg m t := by
  unfold updRow; simp [h]

theorem find?_map_id_preserving (f : TimeMessage → TimeMessage)
    (hf : ∀ m, (f m).id = m.id) (s : List TimeMessage) (i : Nat) :
    (s.map f).find? (fun m => m.id == i) =
      (s.find? (fun m => m.id == i)).map f := by
  induction s with
  | nil => rfl
  | cons a rest ih =>
    simp only [List.map_cons]
    by_cases h : a.id = i
    · rw [List.find?_cons_of_pos _ (by simp [hf, h]),
        List.find?_cons_of_pos _ (by simp [h])]
      rfl
    · rw [List.find?_cons_of_neg _ (by simp [hf, h]),
        List.find?_cons_of_neg _ (by simp [h])]
      exact ih

theorem queryGet_commitDelivered (s : Store) (c : Nat) (t : Int) (i : Nat) :
    queryGet (commitDelivered s c t) i = (queryGet s i).map (updRow c t) :=
  find?_map_id_preserving (updRow c t) (updRow_id c t) s i

theorem queryGet_id (s : Store) (i : Nat) (m : TimeMessage)
    (h : queryGet s i = some m) : m.id = i := by
  have := List.find?_some h
  simpa using this

theorem queryGet_mem (s : Store) (i : Nat) (m : TimeMessage)
    (h : queryGet s i = some m) : m ∈ s :=
  List.mem_of_find?_eq_some h

/-! ### Case lemmas for `send_time_message` -/

theorem send_of_absent (s : Store) (i : Nat) (o : NotifyOutcome) (t : Int)
    (h : queryGet s i = none) :
    send_time_message s i o t = (s, .skipped, []) := by
  unfold send_time_message; rw [h]

theorem send_of_delivered (s : Store) (i : Nat) (o : NotifyOutcome) (t : Int)
    (m : TimeMessage) (h : queryGet s i = some m) (hd : m.delivered = true) :
    send_time_message s i o t = (s, .skipped, []) := by
  unfold send_time_message; rw [h]; simp [hd]

theorem send_of_failure (s : Store) (i : Nat) (t : Int) (m : TimeMessage)
    (h : queryGet s i = some m) (hd : m.delivered = false) :
    send_time_message s i .failure t =
      (s, .deliveryFailed, [⟨i, m.recipient_email, renderBody m⟩]) := by
  unfold send_time_message; rw [h]; simp [hd]

theorem send_of_success (s : Store) (i : Nat) (t : Int) (m : TimeMessage)
    (h : queryGet s i = some m) (hd : m.delivered = false) :
    send_time_message s i .success t =
      (commitDelivered s i t, .deliveredOk,
        [⟨i, m.recipient_email, renderBody m⟩]) := by
  unfold send_time_message; rw [h]; simp [hd]

/-- Shape of the store after one attempt: unchanged, or the commit of a
successful delivery of a previously undelivered message. -/
theorem send_store_shape (s : Store) (i : Nat) (o : NotifyOutcome) (t : Int) :
    (send_time_message s i o t).1 = s ∨
      (o = .success ∧ ∃ m, queryGet s i = some m ∧ m.delivered = false ∧
        (send_time_message s i o t).1 = commitDelivered s i t) := by
  match hq : queryGet s i with
  | none => left; rw [send_of_absent s i o t hq]
  | some m =>
    match hd : m.delivered with
    | true => left; rw [send_of_delivered s i o t m hq hd]
    | false =>
      match o with
      | .failure => left; rw [send_of_failure s i t m hq hd]
      | .success =>
        right
        exact ⟨rfl, m, rfl, hd, by rw [send_of_success s i t m hq hd]⟩

/-! ### Unfolding lemmas for `runSeq` -/

theorem runSeq_cons_store (s : Store) (i : Nat) (o : NotifyOutcome) (t : Int)
    (rest : List (Nat × NotifyOutcome × Int)) :
    (runSeq s ((i, o, t) :: rest)).store =
      (runSeq (send_time_message s i o t).1 rest).store := rfl

theorem runSeq_cons_trace (s : Store) (i : Nat) (o : NotifyOutcome) (t : Int)
    (rest : List (Nat × NotifyOutcome × Int)) :
    (runSeq s ((i, o, t) :: rest)).trace =
      (i, (send_time_message s i o t).2.1) ::
        (runSeq (send_time_message s i o t).1 rest).trace := rfl

theorem runSeq_cons_calls (s : Store) (i : Nat) (o : NotifyOutcome) (t : Int)
    (rest : List (Nat × NotifyOutcome × Int)) :
    (runSeq s ((i, o, t) :: rest)).calls =
      (send_time_message s i o t).2.2 ++
        (runSeq (send_time_message s i o t).1 rest).calls := rfl

/-! ### Per-position evolution of the store -/

theorem send_get? (s : Store) (i : Nat) (o : NotifyOutcome) (t : Int)
    (k : Nat) (m : TimeMessage) (h : s.get? k = some m) :
    (send_time_message s i o t).1.get? k = some m ∨
      (o = NotifyOutcome.success ∧ m.id = i ∧
        (send_time_message s i o t).1.get? k = some (markMsg m t)) := by
  rcases send_store_shape s i o t with h1 | ⟨ho, m2, hq2, hd2, h1⟩
  · left; rw [h1]; exact h
  · rw [h1]
    simp only [commitDelivered]
    rw [List.get?_map, h]
    by_cases he : m.id = i
    · right; exact ⟨ho, he, by simp [updRow_of_eq i t m he]⟩
    · left; simp [updRow_of_ne i t m he]

/-- Master per-position lemma: after any sequence of delivery attempts, a
row is either unchanged or is the mark of its old value by one of the
successful calls targeting its id. -/
theorem runSeq_get? (cs : List (Nat × NotifyOutcome × Int)) (s : Store)
    (k : Nat) (m : TimeMessage) (h : s.get? k = some m) :
    (runSeq s cs).store.get? k = some m ∨
      ∃ c ∈ cs, c.2.1 = NotifyOutcome.success ∧ m.id = c.1 ∧
        (runSeq s cs).store.get? k = some (markMsg m c.2.2) := by
  induction cs generalizing s m with
  | nil => left; exact h
  | cons c rest ih =>
    obtain ⟨i, o, t⟩ := c
    rw [runSeq_cons_store]
    rcases send_get? s i o t k m h with h1 | ⟨ho, hid, h1⟩
    · rcases ih _ m h1 with h2 | ⟨c2, hc2, hs2, hid2, h2⟩
      · left; exact h2
      · right; exact ⟨c2, List.mem_cons_of_mem _ hc2, hs2, hid2, h2⟩
    · rcases ih _ (markMsg m t) h1 with h2 | ⟨c2, hc2, hs2, hid2, h2⟩
      · right
        exact ⟨(i, o, t), List.mem_cons_self _ _, ho, hid, h2⟩
      · right
        refine ⟨c2, List.mem_cons_of_mem _ hc2, hs2, ?_, ?_⟩
        · rw [← markMsg_id m t]; exact hid2
        · rw [h2, markMsg_markMsg]

/-! ### Evolution of `queryGet` under attempts -/

theorem queryGet_send_of_ne (s : Store) (c : Nat) (o : NotifyOutcome)
    (t : Int) (i : Nat) (h : i ≠ c) :
    queryGet (send_time_message s c o t).1 i = queryGet s i := by
  rcases send_store_shape s c o t with h1 | ⟨_, m, _, _, h1⟩
  · rw [h1]
  · rw [h1, queryGet_commitDelivered]
    match hq : queryGet s i with
    | none => rfl
    | some m2 =>
      have hid := queryGet_id s i m2 hq
      simp [updRow_of_ne c t m2 (by rw [hid]; exact h)]

theorem runSeq_queryGet_delivered (cs : List (Nat × NotifyOutcome × Int))
    (s : Store) (i : Nat) (m : TimeMessage)
    (h : queryGet s i = some m) (hd : m.delivered = true) :
    queryGet (runSeq s cs).store i = some m := by
  induction cs generalizing s with
  | nil => exact h
  | cons c rest ih =>
    obtain ⟨c1, o, t⟩ := c
    rw [runSeq_cons_store]
    by_cases hc : i = c1
    · subst hc
      have h1 : (send_time_message s i o t).1 = s := by
        rw [send_of_delivered s i o t m h hd]
      rw [h1]
      exact ih _ h
    · exact ih _ ((queryGet_send_of_ne s c1 o t i hc).trans h)

theorem runSeq_queryGet_of_not_called (cs : List (Nat × NotifyOutcome × Int))
    (s : Store) (i : Nat) (h : ∀ c ∈ cs, c.1 ≠ i) :
    queryGet (runSeq s cs).store i = queryGet s i := by
  induction cs generalizing s with
  | nil => rfl
  | cons c rest ih =>
    obtain ⟨c1, o, t⟩ := c
    rw [runSeq_cons_store]
    have h1 : c1 ≠ i := h (c1, o, t) (List.mem_cons_self _ _)
    rw [ih _ (fun c2 hc2 => h c2 (List.mem_cons_of_mem _ hc2))]
    exact queryGet_send_of_ne s c1 o t i (Ne.symm h1)

/-- If the j-th call of the sequence targets id `i` with a successful
notifier outcome, no earlier call targets `i`, and the row with id `i`
is present and undelivered, then after the sequence the row with id `i`
is exactly its old value marked with the j-th clock reading. -/
theorem runSeq_queryGet_success (cs : List (Nat × NotifyOutcome × Int))
    (s : Store) (j : Nat) (i : Nat) (t : Int) (m : TimeMessage)
    (hj : cs.get? j = some (i, NotifyOutcome.success, t))
    (hpre : ∀ j2, j2 < j → ∀ c2, cs.get? j2 = some c2 → c2.1 ≠ i)
    (hq : queryGet s i = some m) (hd : m.delivered = false) :
    queryGet (runSeq s cs).store i = some (markMsg m t) := by
  induction cs generalizing s j with
  | nil => simp at hj
  | cons c rest ih =>
    obtain ⟨c1, o1, t1⟩ := c
    rw [runSeq_cons_store]
    match j with
    | 0 =>
      have hhead : c1 = i ∧ o1 = NotifyOutcome.success ∧ t1 = t := by
        have : some (c1, o1, t1) = some (i, NotifyOutcome.success, t) := hj
        simpa [Prod.ext_iff] using this
      obtain ⟨he1, he2, he3⟩ := hhead
      rw [he1, he2, he3]
      have h1 : (send_time_message s i NotifyOutcome.success t).1 =
          commitDelivered s i t := by
        rw [send_of_success s i t m hq hd]
      rw [h1]
      have h2 : queryGet (commitDelivered s i t) i = some (markMsg m t) := by
        rw [queryGet_commitDelivered, hq]
        simp [updRow_of_eq i t m (queryGet_id s i m hq)]
      exact runSeq_queryGet_delivered rest _ i (markMsg m t) h2 rfl
    | j2 + 1 =>
      have hne : c1 ≠ i := hpre 0 (Nat.succ_pos j2) (c1, o1, t1) rfl
      have hq1 : queryGet (send_time_message s c1 o1 t1).1 i = some m := by
        rw [queryGet_send_of_ne s c1 o1 t1 i (Ne.symm hne)]; exact hq
      exact ih _ j2 hj
        (fun j3 h3 c3 hc3 =>
          hpre (j3 + 1) (Nat.succ_lt_succ h3) c3 hc3) hq1

/-! ### Unique primary keys -/

theorem queryGet_of_mem_nodup (s : Store) (m : TimeMessage)
    (hn : (s.map (fun x => x.id)).Nodup) (hm : m ∈ s) :
    queryGet s m.id = some m := by
  induction s with
  | nil => simp at hm
  | cons a rest ih =>
    rw [List.map_cons] at hn
    have hn2 := List.nodup_cons.mp hn
    rcases List.mem_cons.mp hm with h | h
    · subst h
      unfold queryGet
      rw [List.find?_cons_of_pos _ (by simp)]
    · have hne : a.id ≠ m.id := by
        intro he
        exact hn2.1 (he ▸ List.mem_map_of_mem (fun x => x.id) h)
      unfold queryGet
      rw [List.find?_cons_of_neg _ (by simp [hne])]
      exact ih hn2.2 h

theorem id_inj_of_nodup (s : Store)
    (hn : (s.map (fun x => x.id)).Nodup) (a b : TimeMessage)
    (ha : a ∈ s) (hb : b ∈ s) (he : a.id = b.id) : a = b := by
  have h1 := queryGet_of_mem_nodup s a hn ha
  have h2 := queryGet_of_mem_nodup s b hn hb
  rw [he] at h1
  rw [h1] at h2
  exact Option.some.inj h2

/-! ### The due-undelivered query -/

theorem mem_dueUndelivered (s : Store) (now : Int) (m : TimeMessage) :
    m ∈ dueUndelivered s now ↔
      m ∈ s ∧ m.delivered = false ∧ m.delivery_datetime ≤ now := by
  simp [dueUndelivered, List.mem_filter, and_assoc]

theorem dueUndelivered_sublist (s : Store) (now : Int) :
    List.Sublist (dueUndelivered s now) s :=
  List.filter_sublist s

theorem nodup_due_ids (s : Store) (now : Int)
    (hn : (s.map (fun x => x.id)).Nodup) :
    ((dueUndelivered s now).map (fun x => x.id)).Nodup :=
  List.Nodup.sublist (List.Sublist.map _ (dueUndelivered_sublist s now)) hn

/-! ### The tick call list -/

theorem mkCalls_get? (ids : List Nat) (env : Nat → NotifyOutcome × Int)
    (i j : Nat) :
    (mkCalls ids env i).get? j =
      (ids.get? j).map (fun v => (v, env (i + j))) := by
  induction ids generalizing i j with
  | nil => simp [mkCalls]
  | cons a rest ih =>
    match j with
    | 0 => simp [mkCalls]
    | j2 + 1 =>
      have he : i + (j2 + 1) = (i + 1) + j2 := by omega
      simp only [mkCalls, List.get?_cons_succ, he]
      exact ih (i + 1) j2

theorem mkCalls_mem (ids : List Nat) (env : Nat → NotifyOutcome × Int)
    (i : Nat) (c : Nat × NotifyOutcome × Int) (h : c ∈ mkCalls ids env i) :
    ∃ j, ids.get? j = some c.1 ∧ c.2 = env (i + j) := by
  induction ids generalizing i with
  | nil => simp [mkCalls] at h
  | cons a rest ih =>
    simp only [mkCalls, List.mem_cons] at h
    rcases h with h | h
    · exact ⟨0, by simp [h], by simp [h]⟩
    · obtain ⟨j, h1, h2⟩ := ih (i + 1) h
      refine ⟨j + 1, by simpa using h1, ?_⟩
      rw [h2]
      have he : (i + 1) + j = i + (j + 1) := by omega
      rw [he]

/-! ### Origin of notifier calls -/

theorem send_calls_id (s : Store) (i : Nat) (o : NotifyOutcome) (t : Int) :
    ∀ nc ∈ (send_time_message s i o t).2.2, nc.message_id = i := by
  intro nc hnc
  match hq : queryGet s i with
  | none => rw [send_of_absent s i o t hq] at hnc; simp at hnc
  | some m =>
    match hd : m.delivered with
    | true => rw [send_of_delivered s i o t m hq hd] at hnc; simp at hnc
    | false =>
      match o with
      | .failure =>
        rw [send_of_failure s i t m hq hd] at hnc
        simp at hnc
        rw [hnc]
      | .success =>
        rw [send_of_success s i t m hq hd] at hnc
        simp at hnc
        rw [hnc]

theorem runSeq_calls_origin (cs : List (Nat × NotifyOutcome × Int))
    (s : Store) :
    ∀ nc ∈ (runSeq s cs).calls, ∃ c ∈ cs, nc.message_id = c.1 := by
  induction cs generalizing s with
  | nil => intro nc hnc; simp [runSeq] at hnc
  | cons c rest ih =>
    obtain ⟨i, o, t⟩ := c
    intro nc hnc
    rw [runSeq_cons_calls] at hnc
    rcases List.mem_append.mp hnc with h | h
    · exact ⟨(i, o, t), List.mem_cons_self _ _, send_calls_id s i o t nc h⟩
    · obtain ⟨c2, hc2, he2⟩ := ih _ nc h
      exact ⟨c2, List.mem_cons_of_mem _ hc2, he2⟩

/-! ### Store length preservation -/

theorem send_store_length (s : Store) (i : Nat) (o : NotifyOutcome)
    (t : Int) : (send_time_message s i o t).1.length = s.length := by
  rcases send_store_shape s i o t with h1 | ⟨_, m, _, _, h1⟩
  · rw [h1]
  · rw [h1]
    simp [commitDelivered]

theorem runSeq_store_length (cs : List (Nat × NotifyOutcome × Int))
    (s : Store) : (runSeq s cs).store.length = s.length := by
  induction cs generalizing s with
  | nil => rfl
  | cons c rest ih =>
    obtain ⟨i, o, t⟩ := c
    rw [runSeq_cons_store, ih, send_store_length]

/-! ### Counting successful mark-delivered commits -/

/-- Number of attempts in a trace that committed the delivered mark for
the given message id. -/
def countOk (tr : List (Nat × AttemptResult)) (i : Nat) : Nat :=
  (tr.filter (fun p => p.1 == i && p.2 == AttemptResult.deliveredOk)).length

/-- A message id is blocked when the row with that id, if present, is
already delivered: no future attempt can commit a mark for it. -/
def blocked (s : Store) (i : Nat) : Prop :=
  ∀ m, queryGet s i = some m → m.delivered = true

theorem countOk_cons_ne (p : Nat × AttemptResult)
    (tr : List (Nat × AttemptResult)) (i : Nat)
    (h : (p.1 == i && p.2 == AttemptResult.deliveredOk) = false) :
    countOk (p :: tr) i = countOk tr i := by
  simp [countOk, List.filter_cons, h]

theorem countOk_cons_ok (p : Nat × AttemptResult)
    (tr : List (Nat × AttemptResult)) (i : Nat)
    (h : (p.1 == i && p.2 == AttemptResult.deliveredOk) = true) :
    countOk (p :: tr) i = countOk tr i + 1 := by
  simp [countOk, List.filter_cons, h]

theorem blocked_runSeq_countOk (cs : List (Nat × NotifyOutcome × Int))
    (s : Store) (i : Nat) (hb : blocked s i) :
    countOk (runSeq s cs).trace i = 0 := by
  induction cs generalizing s with
  | nil => rfl
  | cons c rest ih =>
    obtain ⟨c1, o, t⟩ := c
    rw [runSeq_cons_trace]
    by_cases hc : c1 = i
    · subst hc
      match hq : queryGet s c1 with
      | none =>
        rw [send_of_absent s c1 o t hq]
        rw [countOk_cons_ne _ _ _ (by simp)]
        exact ih s hb
      | some m =>
        have hdel := hb m hq
        rw [send_of_delivered s c1 o t m hq hdel]
        rw [countOk_cons_ne _ _ _ (by simp)]
        exact ih s hb
    · have hQ : queryGet (send_time_message s c1 o t).1 i = queryGet s i :=
        queryGet_send_of_ne s c1 o t i (fun he => hc he.symm)
      rw [countOk_cons_ne _ _ _ (by simp [hc])]
      exact ih _ (fun m hm => hb m (hQ ▸ hm))

theorem runSeq_countOk_le_one (cs : List (Nat × NotifyOutcome × Int))
    (s : Store) (i : Nat) : countOk (runSeq s cs).trace i ≤ 1 := by
  induction cs generalizing s with
  | nil => exact Nat.zero_le 1
  | cons c rest ih =>
    obtain ⟨c1, o, t⟩ := c
    rw [runSeq_cons_trace]
    by_cases hc : c1 = i
    · subst hc
      match hq : queryGet s c1 with
      | none =>
        rw [send_of_absent s c1 o t hq]
        rw [countOk_cons_ne _ _ _ (by simp)]
        exact ih s
      | some m =>
        match hdel : m.delivered with
        | true =>
          rw [send_of_delivered s c1 o t m hq hdel]
          rw [countOk_cons_ne _ _ _ (by simp)]
          exact ih s
        | false =>
          match o with
          | .failure =>
            rw [send_of_failure s c1 t m hq hdel]
            rw [countOk_cons_ne _ _ _ (by simp)]
            exact ih s
          | .success =>
            rw [send_of_success s c1 t m hq hdel]
            have hblocked : blocked (commitDelivered s c1 t) c1 := by
              intro m2 hm2
              rw [queryGet_commitDelivered, hq] at hm2
              have he : updRow c1 t m = m2 := Option.some.inj hm2
              rw [← he, updRow_of_eq c1 t m (queryGet_id s c1 m hq)]
              rfl
            have hzero : countOk (runSeq (commitDelivered s c1 t,
                AttemptResult.deliveredOk,
                [(⟨c1, m.recipient_email, renderBody m⟩ : NotifyCall)]).1
                rest).trace c1 = 0 :=
              blocked_runSeq_countOk rest (commitDelivered s c1 t) c1 hblocked
            rw [countOk_cons_ok _ _ _ (by simp)]
            omega
    · rw [countOk_cons_ne _ _ _ (by simp [hc])]
      exact ih _

/-! ### Demonstration rows used by the witnesses -/

/-- A row already delivered. -/
def msgDelivered : TimeMessage :=
  ⟨1, 1, "hello", "a.example", 10, true, 0, some 11⟩

/-- A pending (undelivered) row due at time 10. -/
def msgPending : TimeMessage :=
  ⟨2, 1, "soon", "b.example", 10, false, 0, none⟩

/-! ### Claim theorems -/

/-- C1: the mark-delivered step of the store is conditional: an attempt
on a row that is already delivered takes the skip path and leaves the
store untouched (no re-mark, no change to `delivered_at`), and in any
sequence of delivery attempts at most one attempt per message id commits
the delivered mark. -/
theorem C1_markDelivered_conditional :
    (∀ (s : Store) (i : Nat) (o : NotifyOutcome) (t : Int) (m : TimeMessage),
      queryGet s i = some m → m.delivered = true →
        send_time_message s i o t = (s, .skipped, [])) ∧
    (∀ (s : Store) (cs : List (Nat × NotifyOutcome × Int)) (i : Nat),
      countOk (runSeq s cs).trace i ≤ 1) :=
  ⟨fun s i o t m hq hd => send_of_delivered s i o t m hq hd,
   fun s cs i => runSeq_countOk_le_one cs s i⟩

theorem C1_witness :
    send_time_message [msgDelivered] 1 NotifyOutcome.success 99 =
      ([msgDelivered], .skipped, []) ∧
    countOk (runSeq [msgPending]
      [(2, NotifyOutcome.success, 11), (2, NotifyOutcome.success, 12)]).trace 2 ≤ 1 :=
  ⟨C1_markDelivered_conditional.1 [msgDelivered] 1 NotifyOutcome.success 99
      msgDelivered rfl rfl,
   C1_markDelivered_conditional.2 [msgPending]
      [(2, NotifyOutcome.success, 11), (2, NotifyOutcome.success, 12)] 2⟩

/-- C3: a delivery attempt on an id that is absent from the store, or on
a row already delivered, is a no-op: skip path, no notifier call, store
(hence every field, `delivered_at` included) unchanged. -/
theorem C3_idempotent_redispatch (s : Store) (i : Nat) (o : NotifyOutcome)
    (t : Int) :
    (queryGet s i = none → send_time_message s i o t = (s, .skipped, [])) ∧
    (∀ m, queryGet s i = some m → m.delivered = true →
      send_time_message s i o t = (s, .skipped, [])) :=
  ⟨send_of_absent s i o t, fun m => send_of_delivered s i o t m⟩

theorem C3_witness :
    send_time_message [msgDelivered] 7 NotifyOutcome.success 99 =
      ([msgDelivered], .skipped, []) ∧
    send_time_message [msgDelivered] 1 NotifyOutcome.failure 99 =
      ([msgDelivered], .skipped, []) :=
  ⟨(C3_idempotent_redispatch [msgDelivered] 7 NotifyOutcome.success 99).1 rfl,
   (C3_idempotent_redispatch [msgDelivered] 1 NotifyOutcome.failure 99).2
      msgDelivered rfl rfl⟩

/-- C4: when the notifier fails, the attempt leaves the store untouched
(no field of the row is mutated) and returns the failed path; the row is
still returned by the due-undelivered query of any later tick whose
captured time is at or past its `delivery_datetime`. -/
theorem C4_failure_atomic (s : Store) (i : Nat) (t now2 : Int)
    (m : TimeMessage) (hq : queryGet s i = some m)
    (hd : m.delivered = false) :
    send_time_message s i NotifyOutcome.failure t =
      (s, .deliveryFailed, [⟨i, m.recipient_email, renderBody m⟩]) ∧
    (m.delivery_datetime ≤ now2 → m ∈ dueUndelivered s now2) := by
  refine ⟨send_of_failure s i t m hq hd, fun h2 => ?_⟩
  exact (mem_dueUndelivered s now2 m).mpr ⟨queryGet_mem s i m hq, hd, h2⟩

theorem C4_witness :
    send_time_message [msgPending] 2 NotifyOutcome.failure 99 =
      ([msgPending], .deliveryFailed,
        [⟨2, msgPending.recipient_email, renderBody msgPending⟩]) ∧
    msgPending ∈ dueUndelivered [msgPending] 12 := by
  have h := C4_failure_atomic [msgPending] 2 99 12 msgPending rfl rfl
  exact ⟨h.1, h.2 (by decide)⟩

/-- A row due only in the future (`delivery_datetime = 100`). -/
def msgLater : TimeMessage :=
  ⟨3, 1, "later", "c.example", 100, false, 0, none⟩

/-- C2: a tick captured at `now` never touches a message whose
`delivery_datetime` is strictly later than `now`: the message is not in
the due query result, its row is unchanged after the tick, and no
notifier call of the tick is for it. -/
theorem C2_no_early_delivery (s : Store) (now : Int)
    (env : Nat → NotifyOutcome × Int) (k : Nat) (m : TimeMessage)
    (hn : (s.map (fun x => x.id)).Nodup)
    (hm : s.get? k = some m) (hlate : now < m.delivery_datetime) :
    m ∉ dueUndelivered s now ∧
      (check_and_send_messages s now env).store.get? k = some m ∧
      ∀ nc ∈ (check_and_send_messages s now env).calls,
        nc.message_id ≠ m.id := by
  have hnotdue : m ∉ dueUndelivered s now := by
    intro h
    have := ((mem_dueUndelivered s now m).mp h).2.2
    omega
  have hcallids :
      ∀ c ∈ mkCalls ((dueUndelivered s now).map (fun x => x.id)) env 0,
        c.1 ≠ m.id := by
    intro c hc hceq
    obtain ⟨j, hj, _⟩ := mkCalls_mem _ env 0 c hc
    have hc1mem : c.1 ∈ (dueUndelivered s now).map (fun x => x.id) :=
      List.get?_mem hj
    obtain ⟨d, hdmem, hdid⟩ := List.mem_map.mp hc1mem
    have hdprops := (mem_dueUndelivered s now d).mp hdmem
    have hdm : d = m :=
      id_inj_of_nodup s hn d m hdprops.1 (List.get?_mem hm)
        (by rw [hdid, hceq])
    rw [hdm] at hdprops
    omega
  refine ⟨hnotdue, ?_, ?_⟩
  · rcases runSeq_get?
        (mkCalls ((dueUndelivered s now).map (fun x => x.id)) env 0)
        s k m hm with h | ⟨c, hc, _, hid, _⟩
    · exact h
    · exact absurd hid (Ne.symm (hcallids c hc))
  · intro nc hnc
    obtain ⟨c, hc, he⟩ := runSeq_calls_origin _ s nc hnc
    rw [he]
    exact hcallids c hc

theorem C2_witness :
    msgLater ∉ dueUndelivered [msgLater] 50 ∧
      (check_and_send_messages [msgLater] 50
        (fun _ => (NotifyOutcome.success, 60))).store.get? 0 = some msgLater ∧
      ∀ nc ∈ (check_and_send_messages [msgLater] 50
        (fun _ => (NotifyOutcome.success, 60))).calls,
        nc.message_id ≠ msgLater.id :=
  C2_no_early_delivery [msgLater] 50 (fun _ => (NotifyOutcome.success, 60))
    0 msgLater (by decide) rfl (by decide)

/-- C5 fails on the code: the `/create_message` handler checks only the
presence of `user_id` in the session and never compares the session's
`app_start_time` stamp with the live `APP_START_TIME`, so a session
minted under a previous process epoch (here 100, live epoch 200) is
honored and the privileged action proceeds, while the `/dashboard`
handler rejects the same session. -/
theorem C5_create_message_epoch_gap :
    is_session_valid ⟨some 1, some 100⟩ 200 = false ∧
    dashboard ⟨some 1, some 100⟩ 200 [1] = RouteOutcome.redirectLogin ∧
    create_message ⟨some 1, some 100⟩ 200 [1] = RouteOutcome.proceed :=
  ⟨by decide, by decide, by decide⟩

/-- C6: failure isolation within a tick: if the j-th message of the due
query gets a successful notifier outcome, it ends marked delivered with
that attempt's clock reading, whatever the outcomes (failures included)
of every other attempt of the same tick. -/
theorem C6_failure_isolation (s : Store) (now : Int)
    (env : Nat → NotifyOutcome × Int) (j : Nat) (d : TimeMessage)
    (hn : (s.map (fun x => x.id)).Nodup)
    (hd : (dueUndelivered s now).get? j = some d)
    (hsucc : (env j).1 = NotifyOutcome.success) :
    queryGet (check_and_send_messages s now env).store d.id =
      some (markMsg d (env j).2) := by
  have hmem := List.get?_mem hd
  have hprops := (mem_dueUndelivered s now d).mp hmem
  have hq : queryGet s d.id = some d := queryGet_of_mem_nodup s d hn hprops.1
  show queryGet (runSeq s
      (mkCalls ((dueUndelivered s now).map (fun x => x.id)) env 0)).store
      d.id = some (markMsg d (env j).2)
  have henv : env j = (NotifyOutcome.success, (env j).2) := by
    rw [← hsucc]
  have hidj : ((dueUndelivered s now).map (fun x => x.id)).get? j =
      some d.id := by
    rw [List.get?_map, hd]; rfl
  have hcs : (mkCalls ((dueUndelivered s now).map (fun x => x.id)) env 0).get? j =
      some (d.id, NotifyOutcome.success, (env j).2) := by
    rw [mkCalls_get?, hidj]
    simp only [Nat.zero_add]
    exact congrArg some (congrArg (Prod.mk d.id) henv)
  have hpre : ∀ j2, j2 < j → ∀ c2,
      (mkCalls ((dueUndelivered s now).map (fun x => x.id)) env 0).get? j2 =
        some c2 → c2.1 ≠ d.id := by
    intro j2 hj2 c2 hc2 hceq
    rw [mkCalls_get?] at hc2
    match hg : ((dueUndelivered s now).map (fun x => x.id)).get? j2 with
    | none => rw [hg] at hc2; simp at hc2
    | some v =>
      rw [hg] at hc2
      have hc2v : (v, env j2) = c2 := by simpa using hc2
      have hv1 : v = c2.1 := by
        have h0 := congrArg Prod.fst hc2v
        simpa using h0
      have hv : ((dueUndelivered s now).map (fun x => x.id)).get? j2 =
          some d.id := by
        rw [hg, hv1, hceq]
      obtain ⟨hlt, _⟩ := List.get?_eq_some.mp hg
      have hnid : ((dueUndelivered s now).map (fun x => x.id)).Nodup :=
        nodup_due_ids s now hn
      have : j2 = j := by
        apply List.getElem?_inj hlt hnid
        rw [← List.get?_eq_getElem?, ← List.get?_eq_getElem?, hv, hidj]
      omega
  exact runSeq_queryGet_success _ s j d.id (env j).2 d hcs hpre hq hprops.2.1

/-- One of the five due rows of the failure-isolation scenario. -/
def batchMsg (n : Nat) : TimeMessage :=
  ⟨n, 1, "m", "r.example", 5, false, 0, none⟩

/-- Five due undelivered rows. -/
def batchStore : Store :=
  [batchMsg 1, batchMsg 2, batchMsg 3, batchMsg 4, batchMsg 5]

/-- Notifier outcomes of the scenario: the third attempt (index 2)
fails, every other attempt succeeds; the clock reads 11. -/
def batchEnv : Nat → NotifyOutcome × Int :=
  fun j => (if j = 2 then NotifyOutcome.failure else NotifyOutcome.success, 11)

theorem C6_witness :
    queryGet (check_and_send_messages batchStore 10 batchEnv).store 4 =
      some (markMsg (batchMsg 4) 11) :=
  C6_failure_isolation batchStore 10 batchEnv 3 (batchMsg 4)
    (by decide) (by decide) (by decide)

/-- C7: the delivered flag is monotonic: a row that is delivered stays
delivered across any single delivery attempt, any sequence of attempts,
and any scheduler tick. -/
theorem C7_delivered_monotonic (s : Store) (k : Nat) (m : TimeMessage)
    (hm : s.get? k = some m) (hdel : m.delivered = true) :
    (∀ (i : Nat) (o : NotifyOutcome) (t : Int), ∃ m1,
      (send_time_message s i o t).1.get? k = some m1 ∧
        m1.delivered = true) ∧
    (∀ cs, ∃ m2, (runSeq s cs).store.get? k = some m2 ∧
      m2.delivered = true) ∧
    (∀ (now : Int) (env : Nat → NotifyOutcome × Int), ∃ m3,
      (check_and_send_messages s now env).store.get? k = some m3 ∧
        m3.delivered = true) := by
  refine ⟨?_, ?_, ?_⟩
  · intro i o t
    rcases send_get? s i o t k m hm with h | ⟨_, _, h⟩
    · exact ⟨m, h, hdel⟩
    · exact ⟨markMsg m t, h, rfl⟩
  · intro cs
    rcases runSeq_get? cs s k m hm with h | ⟨c, _, _, _, h⟩
    · exact ⟨m, h, hdel⟩
    · exact ⟨markMsg m c.2.2, h, rfl⟩
  · intro now env
    rcases runSeq_get?
        (mkCalls ((dueUndelivered s now).map (fun x => x.id)) env 0)
        s k m hm with h | ⟨c, _, _, _, h⟩
    · exact ⟨m, h, hdel⟩
    · exact ⟨markMsg m c.2.2, h, rfl⟩

theorem C7_witness :
    ∃ m1, (send_time_message [msgDelivered] 1 NotifyOutcome.success 50).1.get? 0 =
      some m1 ∧ m1.delivered = true :=
  (C7_delivered_monotonic [msgDelivered] 0 msgDelivered rfl rfl).1 1
    NotifyOutcome.success 50

/-- C8: frame of a successful delivery: the store keeps its length, every
row with a different id is unchanged in every field, and the target row
changes exactly its `delivered` and `delivered_at` fields. -/
theorem C8_success_frame (s : Store) (i : Nat) (t : Int) (m : TimeMessage)
    (hq : queryGet s i = some m) (hd : m.delivered = false) :
    (send_time_message s i NotifyOutcome.success t).1.length = s.length ∧
    ∀ k m0, s.get? k = some m0 →
      (m0.id ≠ i →
        (send_time_message s i NotifyOutcome.success t).1.get? k = some m0) ∧
      (m0.id = i →
        (send_time_message s i NotifyOutcome.success t).1.get? k =
          some { m0 with delivered := true, delivered_at := some t }) := by
  have h1 : (send_time_message s i NotifyOutcome.success t).1 =
      commitDelivered s i t := by
    rw [send_of_success s i t m hq hd]
  refine ⟨send_store_length s i NotifyOutcome.success t, ?_⟩
  intro k m0 hm0
  rw [h1]
  constructor
  · intro hne
    simp only [commitDelivered]
    rw [List.get?_map, hm0]
    simp [updRow_of_ne i t m0 hne]
  · intro heq
    simp only [commitDelivered]
    rw [List.get?_map, hm0]
    simp [updRow_of_eq i t m0 heq, markMsg]

theorem C8_witness :
    (send_time_message [msgPending, msgLater] 2 NotifyOutcome.success 42).1.length = 2 ∧
    (send_time_message [msgPending, msgLater] 2 NotifyOutcome.success 42).1.get? 1 =
      some msgLater ∧
    (send_time_message [msgPending, msgLater] 2 NotifyOutcome.success 42).1.get? 0 =
      some { msgPending with delivered := true, delivered_at := some 42 } := by
  have h := C8_success_frame [msgPending, msgLater] 2 42 msgPending rfl rfl
  exact ⟨h.1, (h.2 1 msgLater rfl).1 (by decide), (h.2 0 msgPending rfl).2 rfl⟩

/-- The coupling of the two delivery fields: the flag is set exactly when
the timestamp is non-null. -/
def coupledInv (m : TimeMessage) : Prop :=
  m.delivered = true ↔ m.delivered_at ≠ none

/-- C9: a freshly created message satisfies the coupling (flag false,
timestamp null), and any sequence of delivery attempts preserves the
coupling for every row, because the commit writes both fields together. -/
theorem C9_delivered_deliveredAt_coupled :
    (∀ (i uid : Nat) (content recip : String) (dd created : Int),
      coupledInv (newTimeMessage i uid content recip dd created)) ∧
    (∀ (s : Store) (cs : List (Nat × NotifyOutcome × Int)),
      (∀ m ∈ s, coupledInv m) →
        ∀ m2 ∈ (runSeq s cs).store, coupledInv m2) := by
  constructor
  · intro i uid content recip dd created
    simp [coupledInv, newTimeMessage]
  · intro s cs hInv m2 hm2
    obtain ⟨k, hk⟩ := List.get?_of_mem hm2
    have hlen : (runSeq s cs).store.length = s.length :=
      runSeq_store_length cs s
    obtain ⟨hklt0, _⟩ := List.get?_eq_some.mp hk
    have hklt : k < s.length := by rw [← hlen]; exact hklt0
    obtain ⟨m0, hm0⟩ : ∃ m0, s.get? k = some m0 :=
      ⟨s.get ⟨k, hklt⟩, List.get?_eq_get hklt⟩
    rcases runSeq_get? cs s k m0 hm0 with h | ⟨c, _, _, _, h⟩
    · have he : m0 = m2 := Option.some.inj (h.symm.trans hk)
      rw [← he]
      exact hInv m0 (List.get?_mem hm0)
    · have he : markMsg m0 c.2.2 = m2 := Option.some.inj (h.symm.trans hk)
      rw [← he]
      simp [coupledInv, markMsg]

theorem C9_witness : coupledInv (markMsg msgPending 42) :=
  C9_delivered_deliveredAt_coupled.2 [msgPending]
    [(2, NotifyOutcome.success, 42)] (by simp [coupledInv, msgPending])
    (markMsg msgPending 42) (by decide)

/-- C10: with a monotone clock (every per-attempt clock reading of the
tick is at or past the tick's captured `now`), any row the tick flips
from undelivered to delivered records a `delivered_at` that is at or
past both its own `delivery_datetime` and `now`. -/
theorem C10_deliveredAt_lower_bound (s : Store) (now : Int)
    (env : Nat → NotifyOutcome × Int) (k : Nat) (m m2 : TimeMessage)
    (hn : (s.map (fun x => x.id)).Nodup)
    (hclock : ∀ j, now ≤ (env j).2)
    (hm : s.get? k = some m) (hund : m.delivered = false)
    (hm2 : (check_and_send_messages s now env).store.get? k = some m2)
    (hdel : m2.delivered = true) :
    ∃ t, m2.delivered_at = some t ∧ m.delivery_datetime ≤ t ∧ now ≤ t := by
  rcases runSeq_get?
      (mkCalls ((dueUndelivered s now).map (fun x => x.id)) env 0)
      s k m hm with h | ⟨c, hc, hcsucc, hid, h⟩
  · have he : m = m2 := Option.some.inj (h.symm.trans hm2)
    rw [← he, hund] at hdel
    exact Bool.noConfusion hdel
  · have hm2eq : m2 = markMsg m c.2.2 := Option.some.inj (hm2.symm.trans h)
    obtain ⟨j, hj, hc2⟩ := mkCalls_mem _ env 0 c hc
    have hc1mem := List.get?_mem hj
    obtain ⟨d, hdmem, hdid⟩ := List.mem_map.mp hc1mem
    have hdprops := (mem_dueUndelivered s now d).mp hdmem
    have hdm : d = m :=
      id_inj_of_nodup s hn d m hdprops.1 (List.get?_mem hm)
        (by rw [hdid, ← hid])
    have hsnd : c.2.2 = (env j).2 := by rw [hc2, Nat.zero_add]
    have h1 : m.delivery_datetime ≤ now := by
      rw [← hdm]; exact hdprops.2.2
    have h2 : now ≤ c.2.2 := by rw [hsnd]; exact hclock j
    refine ⟨c.2.2, ?_, ?_, h2⟩
    · rw [hm2eq]; rfl
    · omega

theorem C10_witness :
    ∃ t, (markMsg (batchMsg 1) 11).delivered_at = some t ∧
      (batchMsg 1).delivery_datetime ≤ t ∧ (10 : Int) ≤ t :=
  C10_deliveredAt_lower_bound batchStore 10 batchEnv 0 (batchMsg 1)
    (markMsg (batchMsg 1) 11) (by decide) (fun j => by norm_num [batchEnv])
    rfl rfl (by decide) rfl

end Chronovault
